import Mathlib

/-!
# Verification of the cypher-rs query engine core

A shallow embedding of the cypher-rs Cypher interpreter (parser AST,
graph model, pattern matcher, expression evaluator, aggregate evaluator
and query executor) together with theorems checking the repository's
specification against the code.

Conventions of the embedding:
* `serde_json::Value` numbers are modelled as integers (`Int`); the engine
  only ever constructs and consumes integer numbers (`i64`), and floating
  point values never reach any code path the theorems talk about.
* Rust `HashMap`s are modelled as key-unique association lists
  (`upsert` removes the old entry before prepending); lookup agrees with
  `HashMap::get`, and no modelled code path depends on iteration order.
* `serde_json::Map` row objects are association lists with in-place
  replacement on duplicate keys; key lookup agrees with the `BTreeMap`.
* Rust `i64` addition (release profile) wraps; `wrap64` makes that explicit.
* Vector indexing `graph.nodes[i]` is total here via `getD` with a sentinel
  node; theorems that depend on a node's content carry the in-range
  hypothesis that the Rust code maintains for well-formed graphs.
-/

namespace CypherRS

/-- JSON values (`serde_json::Value`), with integer numbers. -/
inductive JValue where
  | null
  | bool (b : Bool)
  | num (n : Int)
  | str (s : String)
  | arr (elems : List JValue)
  | obj (fields : List (String × JValue))
deriving Repr

/-- First-match lookup in an association list (`HashMap::get` /
`serde_json::Map::get` on key-unique lists). -/
def lookupKey {α : Type} (l : List (String × α)) (k : String) : Option α :=
  (l.find? (fun p => p.1 == k)).map (·.2)

/-- Insert-or-replace (`HashMap::insert`): removes any old entry for the key. -/
def upsert {α : Type} (k : String) (v : α) (l : List (String × α)) :
    List (String × α) :=
  (k, v) :: l.filter (fun p => p.1 != k)

/-- `serde_json::Map::insert`: replace in place when present, else append. -/
def objInsert (k : String) (v : JValue) :
    List (String × JValue) → List (String × JValue)
  | [] => [(k, v)]
  | (k', v') :: rest =>
    if k' == k then (k, v) :: rest else (k', v') :: objInsert k v rest

/-- `graph::Node`: id, optional label, JSON property bag (`data`), with the
object fields of `data` flattened into an association list. -/
structure Node where
  id : String
  label : Option String
  data : List (String × JValue)
deriving Repr

/-- `Node::get_property`. -/
def Node.get_property (n : Node) (key : String) : Option JValue :=
  lookupKey n.data key

/-- `Node::get_property_as_string`: strings, numbers and booleans render;
null, arrays and objects do not. -/
def Node.get_property_as_string (n : Node) (key : String) : Option String :=
  (n.get_property key).bind fun v =>
    match v with
    | .str s => some s
    | .num m => some (toString m)
    | .bool b => some (toString b)
    | _ => none

/-- `Node::get_property_as_i64`: only JSON numbers convert. -/
def Node.get_property_as_i64 (n : Node) (key : String) : Option Int :=
  (n.get_property key).bind fun v =>
    match v with
    | .num m => some m
    | _ => none

/-- `graph::Edge`: directed, typed, node-index endpoints.
(`from` is a Lean keyword, hence `fromIdx`/`toIdx`.) -/
structure Edge where
  fromIdx : Nat
  toIdx : Nat
  rel_type : String
deriving Repr

/-- `graph::Graph` (the `id_map` index is not consulted by the executor and
is omitted). -/
structure Graph where
  nodes : List Node
  edges : List Edge
deriving Repr

/-- Sentinel for the (panicking, hence never-taken for well-formed graphs)
out-of-range branch of `graph.nodes[i]`. -/
def defaultNode : Node := ⟨"", none, []⟩

/-! ## The parser AST (`parser::ast`), reconstructed from its uses in
`parser/mod.rs` and `engine/executor.rs`.  The Rust field name `variable`
is a Lean keyword and becomes `var`. -/

/-- `ast::PropertyOrVariable`: `var` or `var.property`. -/
structure PropertyOrVariable where
  var : String
  property : Option String
deriving Repr

/-- `ast::Literal`. -/
inductive Literal where
  | str (s : String)
  | num (n : Int)
deriving Repr

/-- `ast::ComparisonOperator`. -/
inductive ComparisonOperator where
  | eq | notEq | contains | lt | gt | ltEq | gtEq
deriving Repr, DecidableEq

/-- `ast::Term`. -/
inductive Term where
  | literal (l : Literal)
  | propertyOrVariable (pv : PropertyOrVariable)
deriving Repr

/-- `ast::Comparison`; `operator`/`right` absent means a bare truthiness
test of `left`. -/
structure Comparison where
  left : PropertyOrVariable
  operator : Option ComparisonOperator
  right : Option Term
deriving Repr

/-- `ast::AggregateFunction`. -/
inductive AggregateFunction where
  | count | sum
deriving Repr, DecidableEq

/-- `ast::AggregateExpression`: `FUNC(var)` or `FUNC(var.property)`. -/
structure AggregateExpression where
  func : AggregateFunction
  var : String
  property : Option String
deriving Repr

/-- `ast::Expression`. -/
inductive Expression where
  | and (es : List Expression)
  | or (es : List Expression)
  | comparison (c : Comparison)
  | aggregate (a : AggregateExpression)
deriving Repr

/-- `ast::NodePattern`. -/
structure NodePattern where
  var : Option String
  labels : List String
deriving Repr

/-- `ast::Direction`. -/
inductive Direction where
  | left | right | both
deriving Repr, DecidableEq

/-- `ast::Range` (hop-range; parsed but never consulted by the matcher).
`end` is a Lean keyword and becomes `stop`. -/
structure Range where
  start : Option Nat
  stop : Option Nat
deriving Repr

/-- `ast::RelationshipPattern`. -/
structure RelationshipPattern where
  var : Option String
  rel_type : Option String
  range : Option Range
  direction : Direction
deriving Repr

/-- `ast::PatternChain`. -/
inductive PatternChain where
  | node (np : NodePattern)
  | relationship (rp : RelationshipPattern) (np : NodePattern)
deriving Repr

/-- `ast::PatternPart`. -/
structure PatternPart where
  chains : List PatternChain
deriving Repr

/-- `ast::MatchClause`. -/
structure MatchClause where
  patterns : List PatternPart
deriving Repr

/-- `ast::WhereClause`. -/
structure WhereClause where
  expression : Expression
deriving Repr

/-- `ast::ReturnItem` (`alias` is a Lean keyword and becomes `aliasName`). -/
structure ReturnItem where
  expression : Expression
  aliasName : Option String
deriving Repr

/-- `ast::ReturnClause`. -/
structure ReturnClause where
  items : List ReturnItem
deriving Repr

/-- `ast::Query`. -/
structure Query where
  match_clause : MatchClause
  where_clause : Option WhereClause
  return_clause : ReturnClause
deriving Repr

/-! ## Engine types (`engine/mod.rs`, `engine/executor.rs`,
`engine/functions/mod.rs`) -/

/-- `executor::EntityId`. -/
inductive EntityId where
  | node (idx : Nat)
  | relationship (from_idx : Nat) (to_idx : Nat) (rel : String)
deriving Repr, DecidableEq

/-- `executor::Bindings = HashMap<String, EntityId>`, as a key-unique
association list. -/
abbrev Bindings := List (String × EntityId)

/-- `EngineError`. -/
inductive EngineError where
  | parseError (msg : String)
  | executionError (msg : String)
  | invalidJson (msg : String)
deriving Repr, DecidableEq

/-- A result row: a `serde_json::Value::Object` column→scalar map. -/
abbrev Row := List (String × JValue)

/-- `QueryResult`: ordered column names plus rows (each row an object). -/
structure QueryResult where
  columns : List String
  rows : List Row
deriving Repr

/-- `QueryResult::get_single_value`: the single scalar when there is
exactly one row and one column. -/
def QueryResult.get_single_value (r : QueryResult) : Option JValue :=
  match r.rows, r.columns with
  | [row], [col] => lookupKey row col
  | _, _ => none

/-- `functions::FunctionError` (only the variant reachable from the
aggregate evaluator matters; the others are carried for error display). -/
inductive FunctionError where
  | notImplemented (s : String)
deriving Repr, DecidableEq

/-- `thiserror` display string of a `FunctionError`. -/
def FunctionError.message : FunctionError → String
  | .notImplemented s => "Function not implemented: " ++ s

/-- `functions::EvalContext`: variable → node-index bindings. -/
structure EvalContext where
  bindings : List (String × Nat)
deriving Repr

/-- `EvalContext::new`. -/
def EvalContext.new : EvalContext := ⟨[]⟩

/-- `EvalContext::bind`. -/
def EvalContext.bind (ctx : EvalContext) (v : String) (node_idx : Nat) :
    EvalContext :=
  ⟨upsert v node_idx ctx.bindings⟩

/-- `EvalContext::get_binding`. -/
def EvalContext.get_binding (ctx : EvalContext) (v : String) : Option Nat :=
  lookupKey ctx.bindings v

/-! ## Aggregate evaluator (`engine/functions/aggregate.rs`) -/

/-- Two's-complement wrap-around of `i64` addition (Rust release profile). -/
def wrap64 (n : Int) : Int := (n + 2 ^ 63) % 2 ^ 64 - 2 ^ 63

namespace AggregateEvaluator

/-- `AggregateEvaluator::count`: the number of contexts. -/
def count (contexts : List EvalContext) : Except FunctionError JValue :=
  .ok (.num contexts.length)

/-- The value a context feeds into the SUM accumulator: the bound node's
property read as `i64`; `none` (skip) when the variable is unbound, the
aggregate has no `.property`, the property is missing, or its value is
not an integer. -/
def sumContributionOpt (agg : AggregateExpression) (g : Graph)
    (ctx : EvalContext) : Option Int :=
  match ctx.get_binding agg.var with
  | some node_idx =>
    let node := g.nodes.getD node_idx defaultNode
    match agg.property with
    | some prop => node.get_property_as_i64 prop
    | none => none
  | none => none

/-- One `sum += v` step of `AggregateEvaluator::sum` (wrapping `i64`
addition; a skipped context leaves the accumulator unchanged). -/
def sumStep (agg : AggregateExpression) (g : Graph) (s : Int)
    (ctx : EvalContext) : Int :=
  match sumContributionOpt agg g ctx with
  | some v => wrap64 (s + v)
  | none => s

/-- What a context adds to the mathematical sum: the contribution, or 0. -/
def sumContribution (agg : AggregateExpression) (g : Graph)
    (ctx : EvalContext) : Int :=
  (sumContributionOpt agg g ctx).getD 0

/-- `AggregateEvaluator::sum`: fold the bound node's integer property into
an `i64` accumulator; unbound variable, missing property, non-integer
value, and absent `.property` all contribute nothing. -/
def sum (agg : AggregateExpression) (contexts : List EvalContext)
    (g : Graph) : Except FunctionError JValue :=
  .ok (.num (contexts.foldl (sumStep agg g) 0))

/-- `AggregateEvaluator::evaluate`. -/
def evaluate (agg : AggregateExpression) (contexts : List EvalContext)
    (g : Graph) : Except FunctionError JValue :=
  match agg.func with
  | .count => count contexts
  | .sum => sum agg contexts g

/-- `AggregateEvaluator::column_name`. -/
def column_name (agg : AggregateExpression) : String :=
  let func_name := match agg.func with
    | .count => "COUNT"
    | .sum => "SUM"
  match agg.property with
  | some prop => func_name ++ "(" ++ agg.var ++ "." ++ prop ++ ")"
  | none => func_name ++ "(" ++ agg.var ++ ")"

end AggregateEvaluator

/-! ## Query executor (`engine/executor.rs`) -/

namespace QueryExecutor

/-- The label check shared by both matchers: an empty list matches every
node, otherwise the node's label must equal one of the listed labels. -/
def labelsMatch (labels : List String) (node : Node) : Bool :=
  labels.isEmpty || labels.any (fun l => node.label == some l)

/-- `QueryExecutor::match_node_pattern`: extend every current binding with
every node that passes the label check; a variable already bound keeps the
binding only when it is bound to the same node index. -/
def match_node_pattern (node_pat : NodePattern) (g : Graph)
    (current_bindings : List Bindings) : List Bindings :=
  current_bindings.flatMap fun bindings =>
    g.nodes.enum.filterMap fun p =>
      if labelsMatch node_pat.labels p.2 then
        match node_pat.var with
        | some v =>
          match lookupKey bindings v with
          | some (.node prev_idx) =>
            if prev_idx = p.1 then some bindings else none
          | some (.relationship ..) => none
          | none => some (upsert v (.node p.1) bindings)
        | none => some bindings
      else none

/-- Neighbors reachable through outgoing edges (`forward_adj`), in edge
order, paired with the edge type. -/
def forwardNeighbors (g : Graph) (start_idx : Nat) : List (Nat × String) :=
  g.edges.filterMap fun e =>
    if e.fromIdx = start_idx then some (e.toIdx, e.rel_type) else none

/-- Neighbors reachable through incoming edges (`backward_adj`). -/
def backwardNeighbors (g : Graph) (start_idx : Nat) : List (Nat × String) :=
  g.edges.filterMap fun e =>
    if e.toIdx = start_idx then some (e.fromIdx, e.rel_type) else none

/-- Candidate neighbors per direction: `Right` outgoing, `Left` incoming,
`Both` their concatenation. -/
def neighborsFor (g : Graph) (d : Direction) (start_idx : Nat) :
    List (Nat × String) :=
  match d with
  | .right => forwardNeighbors g start_idx
  | .left => backwardNeighbors g start_idx
  | .both => forwardNeighbors g start_idx ++ backwardNeighbors g start_idx

/-- The optional relationship-type constraint. -/
def relTypeMatches (target : Option String) (rel : String) : Bool :=
  match target with
  | some t => rel == t
  | none => true

/-- The `new_bindings` of `match_relationship_pattern`: the original
binding, extended with the relationship variable (if the pattern has one)
bound to the traversed edge. -/
def relVarBind (rel_pat : RelationshipPattern) (bindings : Bindings)
    (start_idx : Nat) (p : Nat × String) : Bindings :=
  match rel_pat.var with
  | some r_var => upsert r_var (.relationship start_idx p.1 p.2) bindings
  | none => bindings

/-- `QueryExecutor::match_relationship_pattern`: single-hop expansion from
the node bound to `start_node_var`; bindings whose start variable is
unbound or not a node are silently dropped.  The end-variable check reads
the ORIGINAL binding (before the relationship variable is inserted), and
its `if let Some(EntityId::Node(prev))` else-branch overwrites a
non-node-bound end variable. -/
def match_relationship_pattern (start_node_var : String)
    (rel_pat : RelationshipPattern) (end_node_pat : NodePattern) (g : Graph)
    (current_bindings : List Bindings) : List Bindings :=
  current_bindings.flatMap fun bindings =>
    match lookupKey bindings start_node_var with
    | some (.node start_idx) =>
      (neighborsFor g rel_pat.direction start_idx).filterMap fun p =>
        if relTypeMatches rel_pat.rel_type p.2 then
          if labelsMatch end_node_pat.labels (g.nodes.getD p.1 defaultNode) then
            let new_bindings := relVarBind rel_pat bindings start_idx p
            match end_node_pat.var with
            | some v =>
              match lookupKey bindings v with
              | some (.node prev_idx) =>
                if prev_idx = p.1 then some new_bindings else none
              | _ => some (upsert v (.node p.1) new_bindings)
            | none => some new_bindings
          else none
        else none
    | _ => []

/-- One step of the pattern loop in `QueryExecutor::execute`: the
accumulator carries the bindings list and `last_node_variable`.  A
relationship chain reached with no `last_node_variable` is skipped
entirely (nothing changes, not even `last_node_variable`). -/
def processChain (g : Graph) (acc : List Bindings × Option String)
    (chain : PatternChain) : List Bindings × Option String :=
  match chain with
  | .node node_pat =>
    let last := match node_pat.var with
      | some v => some v
      | none => acc.2
    (match_node_pattern node_pat g acc.1, last)
  | .relationship rel_pat node_pat =>
    match acc.2 with
    | some start_var =>
      let bl := match_relationship_pattern start_var rel_pat node_pat g acc.1
      let last := match node_pat.var with
        | some v => some v
        | none => some start_var
      (bl, last)
    | none => acc

/-- The matching stage of `QueryExecutor::execute`: fold each pattern
part's chain, resetting `last_node_variable` per part, starting from one
empty binding. -/
def matchPatterns (q : Query) (g : Graph) : List Bindings :=
  q.match_clause.patterns.foldl
    (fun bl part => (part.chains.foldl (processChain g) (bl, none)).1)
    [([] : Bindings)]

/-- `QueryExecutor::evaluate_property_or_variable`: resolve a
`var`/`var.prop` reference against a binding to its string form. -/
def evaluate_property_or_variable (pv : PropertyOrVariable)
    (bindings : Bindings) (g : Graph) : String :=
  match lookupKey bindings pv.var with
  | some (.node idx) =>
    let node := g.nodes.getD idx defaultNode
    match pv.property with
    | some prop => (node.get_property_as_string prop).getD "null"
    | none => node.id
  | some (.relationship _ _ rel) =>
    match pv.property with
    | some prop => if prop == "type" then rel else "null"
    | none => rel
  | none => "null"

/-- Lexicographic strict order on character lists: Rust's `str` `Ord`
(byte-wise lexicographic, which on UTF-8 coincides with code-point-wise
lexicographic order). -/
def charsLt : List Char → List Char → Bool
  | _, [] => false
  | [], _ :: _ => true
  | a :: as, b :: bs =>
    if a.toNat < b.toNat then true
    else if b.toNat < a.toNat then false
    else charsLt as bs

/-- Rust `left < right` on `String`. -/
def strLt (s t : String) : Bool := charsLt s.data t.data

/-- Rust `left <= right` on `String` (total order: `s ≤ t ↔ ¬ t < s`). -/
def strLe (s t : String) : Bool := !strLt t s

/-- Prefix test on character lists. -/
def charsPrefix : List Char → List Char → Bool
  | [], _ => true
  | _ :: _, [] => false
  | a :: as, b :: bs => a == b && charsPrefix as bs

/-- Substring occurrence at any position. -/
def charsContains (sub : List Char) : List Char → Bool
  | [] => charsPrefix sub []
  | c :: rest => charsPrefix sub (c :: rest) || charsContains sub rest

/-- Rust `str::contains`: substring test. -/
def strContainsSub (s sub : String) : Bool :=
  charsContains sub.data s.data

/-- The string form of a comparison's right-hand term. -/
def termValue (t : Term) (bindings : Bindings) (g : Graph) : String :=
  match t with
  | .literal (.str s) => s
  | .literal (.num n) => toString n
  | .propertyOrVariable pv => evaluate_property_or_variable pv bindings g

/-- The non-recursive comparison case of
`QueryExecutor::evaluate_expression`: both sides are coerced to strings;
`<`,`>`,`<=`,`>=` compare lexicographically, `=`/`<>` by string equality,
`CONTAINS` as substring; without an operator (or without a right term) the
left side is truthiness-tested. -/
def evalComparison (comp : Comparison) (bindings : Bindings) (g : Graph) :
    Bool :=
  let left_val := evaluate_property_or_variable comp.left bindings g
  match comp.right with
  | some right_term =>
    let right_val := termValue right_term bindings g
    match comp.operator with
    | some op =>
      match op with
      | .eq => left_val == right_val
      | .notEq => left_val != right_val
      | .contains => strContainsSub left_val right_val
      | .lt => strLt left_val right_val
      | .gt => strLt right_val left_val
      | .ltEq => strLe left_val right_val
      | .gtEq => strLe right_val left_val
    | none => !(left_val == "") && !(left_val == "null")
  | none => !(left_val == "") && !(left_val == "null")

mutual

/-- `QueryExecutor::evaluate_expression`: boolean evaluation for WHERE;
an aggregate expression in WHERE is vacuously true. -/
def evaluate_expression (expr : Expression) (bindings : Bindings)
    (g : Graph) : Bool :=
  match expr with
  | .and es => evalAll es bindings g
  | .or es => evalAny es bindings g
  | .comparison comp => evalComparison comp bindings g
  | .aggregate _ => true

/-- `Iterator::all` over the conjuncts of an `And`. -/
def evalAll (es : List Expression) (bindings : Bindings) (g : Graph) :
    Bool :=
  match es with
  | [] => true
  | e :: rest => evaluate_expression e bindings g && evalAll rest bindings g

/-- `Iterator::any` over the disjuncts of an `Or`. -/
def evalAny (es : List Expression) (bindings : Bindings) (g : Graph) :
    Bool :=
  match es with
  | [] => false
  | e :: rest => evaluate_expression e bindings g || evalAny rest bindings g

end

/-- Rust `str::parse::<i64>`: optional sign, then decimal digits, rejected
when empty, non-numeric, or outside the `i64` range. -/
def parseI64 (s : String) : Option Int :=
  match s.data with
  | [] => none
  | c :: cs =>
    let digits := if c == '-' || c == '+' then cs else c :: cs
    if digits.isEmpty then none
    else if digits.all Char.isDigit then
      let mag : Int := digits.foldl (fun acc ch => acc * 10 + (ch.toNat - 48)) 0
      let n : Int := if c == '-' then -mag else mag
      if -(2 ^ 63) ≤ n ∧ n < 2 ^ 63 then some n else none
    else none

/-- `QueryExecutor::evaluate_expression_value`: scalar projection; a bare
reference renders as a number when its string form parses as `i64`, else
as a string; anything with an operator projects its boolean; aggregates
and other shapes project null. -/
def evaluate_expression_value (expr : Expression) (bindings : Bindings)
    (g : Graph) : JValue :=
  match expr with
  | .comparison comp =>
    match comp.operator, comp.right with
    | none, none =>
      let val := evaluate_property_or_variable comp.left bindings g
      match parseI64 val with
      | some n => .num n
      | none => .str val
    | _, _ => .bool (evaluate_expression expr bindings g)
  | .aggregate _ => .null
  | _ => .null

/-- `QueryExecutor::expression_column_name`. -/
def expression_column_name (expr : Expression) : String :=
  match expr with
  | .comparison comp =>
    match comp.operator, comp.right with
    | none, none =>
      match comp.left.property with
      | some prop => comp.left.var ++ "." ++ prop
      | none => comp.left.var
    | _, _ => "expression"
  | .aggregate agg =>
    let func_name := match agg.func with
      | .count => "COUNT"
      | .sum => "SUM"
    match agg.property with
    | some prop => func_name ++ "(" ++ agg.var ++ "." ++ prop ++ ")"
    | none => func_name ++ "(" ++ agg.var ++ ")"
  | _ => "expression"

/-- Whether a RETURN item is an aggregate expression. -/
def isAggregateItem (item : ReturnItem) : Bool :=
  match item.expression with
  | .aggregate _ => true
  | _ => false

/-- The `EvalContext` built from one binding in
`execute_aggregate_return`: only node-bound variables transfer. -/
def contextOf (bindings : Bindings) : EvalContext :=
  bindings.foldl
    (fun ctx p =>
      match p.2 with
      | .node idx => ctx.bind p.1 idx
      | .relationship .. => ctx)
    EvalContext.new

/-- The contexts handed to the aggregate evaluator: one per binding. -/
def contextsOf (bindings_list : List Bindings) : List EvalContext :=
  bindings_list.map contextOf

/-- The column name of a RETURN item in the aggregate path. -/
def aggColumnName (item : ReturnItem) : String :=
  match item.aliasName with
  | some a => a
  | none =>
    match item.expression with
    | .aggregate agg => AggregateEvaluator.column_name agg
    | e => expression_column_name e

/-- The item loop of `QueryExecutor::execute_aggregate_return`: evaluate
each aggregate item to a named value, failing on the first non-aggregate
item. -/
def aggregate_items (g : Graph) (bindings_list : List Bindings) :
    List ReturnItem → Except EngineError (List (String × JValue))
  | [] => .ok []
  | item :: rest =>
    match item.expression with
    | .aggregate agg =>
      match AggregateEvaluator.evaluate agg (contextsOf bindings_list) g with
      | .ok v =>
        (aggregate_items g bindings_list rest).map
          (fun ps => (aggColumnName item, v) :: ps)
      | .error e => .error (.executionError e.message)
    | _ =>
      .error (.executionError "Mixed aggregate and non-aggregate in RETURN")

/-- `QueryExecutor::execute_aggregate_return`: one output row holding
every aggregate value. -/
def execute_aggregate_return (return_clause : ReturnClause)
    (bindings_list : List Bindings) (g : Graph) :
    Except EngineError QueryResult :=
  (aggregate_items g bindings_list return_clause.items).map fun pairs =>
    { columns := pairs.map Prod.fst
      rows := [pairs.foldl (fun row p => objInsert p.1 p.2 row) []] }

/-- `QueryExecutor::execute_normal_return`: one output row per binding. -/
def execute_normal_return (return_clause : ReturnClause)
    (bindings_list : List Bindings) (g : Graph) :
    Except EngineError QueryResult :=
  let columns := return_clause.items.map fun item =>
    item.aliasName.getD (expression_column_name item.expression)
  let rows := bindings_list.map fun bindings =>
    (columns.zip return_clause.items).foldl
      (fun row p =>
        objInsert p.1 (evaluate_expression_value p.2.expression bindings g)
          row)
      []
  .ok { columns := columns, rows := rows }

/-- Stages 1–2 of `QueryExecutor::execute`: match the patterns, then
retain the bindings passing the WHERE filter (if any). -/
def filteredBindings (q : Query) (g : Graph) : List Bindings :=
  match q.where_clause with
  | some w =>
    (matchPatterns q g).filter fun b => evaluate_expression w.expression b g
  | none => matchPatterns q g

/-- `QueryExecutor::execute`: match, filter, then project (aggregate path
when any RETURN item is an aggregate). -/
def execute (q : Query) (g : Graph) : Except EngineError QueryResult :=
  if q.return_clause.items.any isAggregateItem then
    execute_aggregate_return q.return_clause (filteredBindings q g) g
  else
    execute_normal_return q.return_clause (filteredBindings q g) g

end QueryExecutor

/-! ## Concrete instances used by the theorems

Graphs mirror the repository's test fixtures; queries are the parse
results (per `parser/mod.rs`) of the Cypher texts named in the claims. -/

/-- The three-node fixture of `executor.rs` tests: admins aged 30 and 35,
a user aged 25, edges `0→1` and `1→2` of type `knows`. -/
def ageGraph : Graph :=
  { nodes := [
      ⟨"1", some "admin",
        [("id", .str "1"), ("role", .str "admin"), ("age", .num 30)]⟩,
      ⟨"2", some "user",
        [("id", .str "2"), ("role", .str "user"), ("age", .num 25)]⟩,
      ⟨"3", some "admin",
        [("id", .str "3"), ("role", .str "admin"), ("age", .num 35)]⟩],
    edges := [⟨0, 1, "knows"⟩, ⟨1, 2, "knows"⟩] }

/-- `MATCH (n) RETURN COUNT(n)`. -/
def countAllQuery : Query :=
  { match_clause := ⟨[⟨[.node ⟨some "n", []⟩]⟩]⟩
    where_clause := none
    return_clause := ⟨[⟨.aggregate ⟨.count, "n", none⟩, none⟩]⟩ }

/-- `MATCH (n) RETURN SUM(n.age)`. -/
def sumAgeQuery : Query :=
  { match_clause := ⟨[⟨[.node ⟨some "n", []⟩]⟩]⟩
    where_clause := none
    return_clause := ⟨[⟨.aggregate ⟨.sum, "n", some "age"⟩, none⟩]⟩ }

/-- `MATCH (n) RETURN n.id, COUNT(n)` — the mixed RETURN of claim C3. -/
def mixedReturnQuery : Query :=
  { match_clause := ⟨[⟨[.node ⟨some "n", []⟩]⟩]⟩
    where_clause := none
    return_clause := ⟨[
      ⟨.comparison ⟨⟨"n", some "id"⟩, none, none⟩, none⟩,
      ⟨.aggregate ⟨.count, "n", none⟩, none⟩]⟩ }

/-- Two unlabelled nodes whose `value` properties are the strings `"10"`
and `"2"` — the fixture of claim C4. -/
def strCmpGraph : Graph :=
  { nodes := [
      ⟨"1", none, [("value", .str "10")]⟩,
      ⟨"2", none, [("value", .str "2")]⟩],
    edges := [] }

/-- `MATCH (n) WHERE n.value > "9" RETURN n.value`. -/
def strCmpQuery : Query :=
  { match_clause := ⟨[⟨[.node ⟨some "n", []⟩]⟩]⟩
    where_clause := some
      ⟨.comparison ⟨⟨"n", some "value"⟩, some .gt, some (.literal (.str "9"))⟩⟩
    return_clause := ⟨[⟨.comparison ⟨⟨"n", some "value"⟩, none, none⟩, none⟩]⟩ }

/-- `MATCH (n:ghost) RETURN COUNT(n), SUM(n.age)` — an unmatched pattern
with an all-aggregate RETURN (claim C6). -/
def unmatchedAggQuery : Query :=
  { match_clause := ⟨[⟨[.node ⟨some "n", ["ghost"]⟩]⟩]⟩
    where_clause := none
    return_clause := ⟨[
      ⟨.aggregate ⟨.count, "n", none⟩, none⟩,
      ⟨.aggregate ⟨.sum, "n", some "age"⟩, none⟩]⟩ }

/-- Three nodes with edges `0→1`, `1→0`, `1→2` (all type `k`) — the
fixture for the join-coherence example of claim C2. -/
def joinGraph : Graph :=
  { nodes := [⟨"1", none, []⟩, ⟨"2", none, []⟩, ⟨"3", none, []⟩],
    edges := [⟨0, 1, "k"⟩, ⟨1, 0, "k"⟩, ⟨1, 2, "k"⟩] }

/-- `MATCH (a)-[]->(b), (b)-[]->(a) RETURN a.id`. -/
def joinQuery : Query :=
  { match_clause := ⟨[
      ⟨[.node ⟨some "a", []⟩,
        .relationship ⟨none, none, none, .right⟩ ⟨some "b", []⟩]⟩,
      ⟨[.node ⟨some "b", []⟩,
        .relationship ⟨none, none, none, .right⟩ ⟨some "a", []⟩]⟩]⟩
    where_clause := none
    return_clause := ⟨[⟨.comparison ⟨⟨"a", some "id"⟩, none, none⟩, none⟩]⟩ }

/-- Three nodes with edges `0→1`, `1→2` (type `k`) — the fixture for the
C2 counterexample. -/
def chainGraph : Graph :=
  { nodes := [⟨"1", none, []⟩, ⟨"2", none, []⟩, ⟨"3", none, []⟩],
    edges := [⟨0, 1, "k"⟩, ⟨1, 2, "k"⟩] }

/-- `MATCH (a)-[x]->(b)-[y]->(x) RETURN a` — the variable `x` occurs
first as a relationship variable and is then revisited as an end-node
variable. -/
def relRevisitQuery : Query :=
  { match_clause := ⟨[
      ⟨[.node ⟨some "a", []⟩,
        .relationship ⟨some "x", none, none, .right⟩ ⟨some "b", []⟩,
        .relationship ⟨some "y", none, none, .right⟩ ⟨some "x", []⟩]⟩]⟩
    where_clause := none
    return_clause := ⟨[⟨.comparison ⟨⟨"a", none⟩, none, none⟩, none⟩]⟩ }

/-- Two nodes and one `knows` edge `0→1` — the fixture of claim C8. -/
def twoNodeGraph : Graph :=
  { nodes := [⟨"1", none, []⟩, ⟨"2", none, []⟩],
    edges := [⟨0, 1, "knows"⟩] }

/-- `MATCH ()-[:knows]->(b) RETURN b.id` — the first node pattern has no
variable, so the relationship step is skipped (claim C8). -/
def skippedRelQuery : Query :=
  { match_clause := ⟨[
      ⟨[.node ⟨none, []⟩,
        .relationship ⟨none, some "knows", none, .right⟩ ⟨some "b", []⟩]⟩]⟩
    where_clause := none
    return_clause := ⟨[⟨.comparison ⟨⟨"b", some "id"⟩, none, none⟩, none⟩]⟩ }

/-! ## Association-list and indexing lemmas -/

theorem lookupKey_nil {α : Type} (k : String) :
    lookupKey ([] : List (String × α)) k = none := rfl

theorem lookupKey_cons {α : Type} (k' : String) (v : α)
    (l : List (String × α)) (k : String) :
    lookupKey ((k', v) :: l) k = if k' = k then some v else lookupKey l k := by
  by_cases h : k' = k
  · simp [lookupKey, List.find?, h]
  · have hb : (k' == k) = false := beq_eq_false_iff_ne.mpr h
    simp [lookupKey, List.find?, hb, h]

theorem lookupKey_filter_ne {α : Type} (l : List (String × α))
    (k k' : String) (h : k ≠ k') :
    lookupKey (l.filter fun p => p.1 != k') k = lookupKey l k := by
  induction l with
  | nil => rfl
  | cons p l ih =>
    obtain ⟨kp, vp⟩ := p
    by_cases hk : kp = k
    · subst hk
      have : (kp != k') = true := by simpa using h
      simp [List.filter, this, lookupKey_cons]
    · by_cases hk' : kp = k'
      · subst hk'
        simp only [List.filter, bne_self_eq_false]
        rw [ih, lookupKey_cons]
        simp [hk]
      · have : (kp != k') = true := by simpa using hk'
        simp only [List.filter, this]
        rw [lookupKey_cons, lookupKey_cons, ih]

theorem lookupKey_upsert_eq {α : Type} (k : String) (v : α)
    (l : List (String × α)) : lookupKey (upsert k v l) k = some v := by
  simp [upsert, lookupKey_cons]

theorem lookupKey_upsert_ne {α : Type} (k k' : String) (v : α)
    (l : List (String × α)) (h : k ≠ k') :
    lookupKey (upsert k' v l) k = lookupKey l k := by
  simp only [upsert, lookupKey_cons]
  rw [if_neg (fun e => h e.symm), lookupKey_filter_ne _ _ _ h]

theorem List_getD_of_get? {α : Type} :
    ∀ (l : List α) (n : Nat) (a d : α), l.get? n = some a → l.getD n d = a
  | [], n, a, d, h => by simp at h
  | x :: l, 0, a, d, h => by simpa using h
  | x :: l, n + 1, a, d, h => by
    simpa using List_getD_of_get? l n a d h

/-! ## Claim C7: property resolution on relationship bindings -/

/-- C7: for a variable bound to a relationship, the synthetic property
`type` resolves to the relationship's type string, any other property
resolves to `"null"`, and a bare reference resolves to the type string. -/
theorem relationshipPropertyResolution (b : Bindings) (g : Graph)
    (v : String) (f t : Nat) (rel : String)
    (h : lookupKey b v = some (.relationship f t rel)) :
    QueryExecutor.evaluate_property_or_variable ⟨v, some "type"⟩ b g = rel ∧
    (∀ p, p ≠ "type" →
      QueryExecutor.evaluate_property_or_variable ⟨v, some p⟩ b g = "null") ∧
    QueryExecutor.evaluate_property_or_variable ⟨v, none⟩ b g = rel := by
  refine ⟨?_, ?_, ?_⟩
  · simp [QueryExecutor.evaluate_property_or_variable, h]
  · intro p hp
    simp [QueryExecutor.evaluate_property_or_variable, h, hp]
  · simp [QueryExecutor.evaluate_property_or_variable, h]

/-- Witness for C7 at the binding `r ↦ Relationship(0,1,"knows")`. -/
theorem relationshipPropertyResolution_witness :
    QueryExecutor.evaluate_property_or_variable ⟨"r", some "type"⟩
        [("r", .relationship 0 1 "knows")] ageGraph = "knows" ∧
    (∀ p, p ≠ "type" →
      QueryExecutor.evaluate_property_or_variable ⟨"r", some p⟩
        [("r", .relationship 0 1 "knows")] ageGraph = "null") ∧
    QueryExecutor.evaluate_property_or_variable ⟨"r", none⟩
        [("r", .relationship 0 1 "knows")] ageGraph = "knows" :=
  relationshipPropertyResolution [("r", .relationship 0 1 "knows")]
    ageGraph "r" 0 1 "knows" rfl

/-! ## Claim C8: relationship chains with no bound start variable -/

/-- C8: a relationship chain reached while `last_node_variable` is `none`
(no preceding node pattern introduced a variable) is skipped entirely:
bindings pass through unchanged, no constraint is enforced, no variable is
bound.  Concretely, `MATCH ()-[:knows]->(b) RETURN b.id` over a two-node,
one-edge graph leaves `b` unbound and returns one row per pre-existing
binding (two rows, one per node matched by `()`), not one row per edge. -/
theorem skippedRelationshipStep :
    (∀ (g : Graph) (bl : List Bindings) (rp : RelationshipPattern)
      (np : NodePattern),
      QueryExecutor.processChain g (bl, none) (.relationship rp np) =
        (bl, none)) ∧
    QueryExecutor.execute skippedRelQuery twoNodeGraph =
      .ok ⟨["b.id"], [[("b.id", .str "null")], [("b.id", .str "null")]]⟩ ∧
    twoNodeGraph.nodes.length = 2 ∧ twoNodeGraph.edges.length = 1 :=
  ⟨fun _ _ _ _ => rfl, rfl, rfl, rfl⟩

/-! ## Claim C10: bare node-bound variable references -/

/-- C10: a bare reference to a node-bound variable resolves to the node's
id string; in WHERE that string is truthiness-tested or compared; in a
non-aggregate projection it renders as a number exactly when it parses as
an `i64`, else as a string; an unbound variable resolves to `"null"`. -/
theorem bareVariableResolution :
    (∀ (b : Bindings) (g : Graph) (v : String) (idx : Nat) (node : Node),
      lookupKey b v = some (.node idx) → g.nodes.get? idx = some node →
      QueryExecutor.evaluate_property_or_variable ⟨v, none⟩ b g = node.id ∧
      QueryExecutor.evaluate_expression_value
          (.comparison ⟨⟨v, none⟩, none, none⟩) b g =
        (match QueryExecutor.parseI64 node.id with
         | some n => JValue.num n
         | none => .str node.id) ∧
      QueryExecutor.evaluate_expression
          (.comparison ⟨⟨v, none⟩, none, none⟩) b g =
        (!(node.id == "") && !(node.id == "null")) ∧
      (∀ s, QueryExecutor.evaluate_expression
          (.comparison ⟨⟨v, none⟩, some .eq, some (.literal (.str s))⟩) b g =
        (node.id == s))) ∧
    (∀ (b : Bindings) (g : Graph) (v : String) (p : Option String),
      lookupKey b v = none →
      QueryExecutor.evaluate_property_or_variable ⟨v, p⟩ b g = "null") := by
  constructor
  · intro b g v idx node hb hn
    have hid : QueryExecutor.evaluate_property_or_variable ⟨v, none⟩ b g =
        node.id := by
      simp only [QueryExecutor.evaluate_property_or_variable, hb]
      rw [List_getD_of_get? g.nodes idx node defaultNode hn]
    refine ⟨hid, ?_, ?_, ?_⟩
    · simp [QueryExecutor.evaluate_expression_value, hid]
    · simp [QueryExecutor.evaluate_expression, QueryExecutor.evalComparison,
        hid]
    · intro s
      simp [QueryExecutor.evaluate_expression, QueryExecutor.evalComparison,
        QueryExecutor.termValue, hid]
  · intro b g v p h
    cases p <;> simp [QueryExecutor.evaluate_property_or_variable, h]

/-- Witness for C10 at `n ↦ Node 0` of `ageGraph` (id `"1"`, which parses
as the number 1) and at an unbound variable. -/
theorem bareVariableResolution_witness :
    (QueryExecutor.evaluate_property_or_variable ⟨"n", none⟩
        [("n", .node 0)] ageGraph = "1" ∧
      QueryExecutor.evaluate_expression_value
          (.comparison ⟨⟨"n", none⟩, none, none⟩) [("n", .node 0)] ageGraph =
        .num 1 ∧
      QueryExecutor.evaluate_expression
          (.comparison ⟨⟨"n", none⟩, none, none⟩) [("n", .node 0)] ageGraph =
        true ∧
      (∀ s, QueryExecutor.evaluate_expression
          (.comparison ⟨⟨"n", none⟩, some .eq, some (.literal (.str s))⟩)
          [("n", .node 0)] ageGraph = ("1" == s))) ∧
    QueryExecutor.evaluate_property_or_variable ⟨"m", none⟩
      [("n", .node 0)] ageGraph = "null" :=
  ⟨bareVariableResolution.1 [("n", .node 0)] ageGraph "n" 0
      ⟨"1", some "admin",
        [("id", .str "1"), ("role", .str "admin"), ("age", .num 30)]⟩
      rfl rfl,
    bareVariableResolution.2 [("n", .node 0)] ageGraph "m" none rfl⟩

/-! ## Wrap-around arithmetic -/

theorem wrap64_eq_self {n : Int} (h1 : -(2 ^ 63) ≤ n) (h2 : n < 2 ^ 63) :
    wrap64 n = n := by
  unfold wrap64; omega

theorem wrap64_lb (n : Int) : -(2 ^ 63) ≤ wrap64 n := by
  unfold wrap64; omega

theorem wrap64_ub (n : Int) : wrap64 n < 2 ^ 63 := by
  unfold wrap64; omega

theorem wrap64_add_left (a b : Int) :
    wrap64 (wrap64 a + b) = wrap64 (a + b) := by
  unfold wrap64; omega

/-! ## Aggregate evaluator lemmas -/

theorem evaluate_aggregate_ok (agg : AggregateExpression)
    (ctxs : List EvalContext) (g : Graph) :
    ∃ n : Int, AggregateEvaluator.evaluate agg ctxs g = .ok (.num n) := by
  cases hf : agg.func <;>
    simp [AggregateEvaluator.evaluate, hf, AggregateEvaluator.count,
      AggregateEvaluator.sum]

theorem execute_agg_path (q : Query) (g : Graph)
    (h : q.return_clause.items.any QueryExecutor.isAggregateItem = true) :
    QueryExecutor.execute q g =
      QueryExecutor.execute_aggregate_return q.return_clause
        (QueryExecutor.filteredBindings q g) g := by
  simp [QueryExecutor.execute, h]

theorem execute_normal_path (q : Query) (g : Graph)
    (h : q.return_clause.items.any QueryExecutor.isAggregateItem = false) :
    QueryExecutor.execute q g =
      QueryExecutor.execute_normal_return q.return_clause
        (QueryExecutor.filteredBindings q g) g := by
  simp [QueryExecutor.execute, h]

theorem execute_aggregate_return_ok (rc : ReturnClause)
    (bl : List Bindings) (g : Graph) (ps : List (String × JValue))
    (h : QueryExecutor.aggregate_items g bl rc.items = .ok ps) :
    QueryExecutor.execute_aggregate_return rc bl g =
      .ok ⟨ps.map Prod.fst,
        [ps.foldl (fun row p => objInsert p.1 p.2 row) []]⟩ := by
  unfold QueryExecutor.execute_aggregate_return
  rw [h]
  rfl

theorem execute_normal_return_ok (rc : ReturnClause) (bl : List Bindings)
    (g : Graph) :
    ∃ r, QueryExecutor.execute_normal_return rc bl g = .ok r :=
  ⟨_, rfl⟩

theorem aggregate_items_all_ok (g : Graph) (bl : List Bindings)
    (items : List ReturnItem)
    (h : ∀ it ∈ items, QueryExecutor.isAggregateItem it = true) :
    ∃ ps, QueryExecutor.aggregate_items g bl items = .ok ps ∧
      ps.map Prod.fst = items.map QueryExecutor.aggColumnName := by
  induction items with
  | nil => exact ⟨[], rfl, rfl⟩
  | cons item rest ih =>
    obtain ⟨ps, hps, hmap⟩ := ih fun it hit => h it (List.mem_cons_of_mem _ hit)
    have hhead := h item (List.mem_cons_self _ _)
    match hexp : item.expression with
    | .aggregate agg =>
      obtain ⟨n, hn⟩ :=
        evaluate_aggregate_ok agg (QueryExecutor.contextsOf bl) g
      refine ⟨(QueryExecutor.aggColumnName item, .num n) :: ps, ?_, ?_⟩
      · simp [QueryExecutor.aggregate_items, hexp, hn, hps, Except.map]
      · simp [hmap]
    | .comparison c => simp [QueryExecutor.isAggregateItem, hexp] at hhead
    | .and es => simp [QueryExecutor.isAggregateItem, hexp] at hhead
    | .or es => simp [QueryExecutor.isAggregateItem, hexp] at hhead

theorem aggregate_items_mixed (g : Graph) (bl : List Bindings)
    (items : List ReturnItem)
    (h : ∃ it ∈ items, QueryExecutor.isAggregateItem it = false) :
    QueryExecutor.aggregate_items g bl items =
      .error (.executionError "Mixed aggregate and non-aggregate in RETURN")
    := by
  induction items with
  | nil => simp at h
  | cons item rest ih =>
    obtain ⟨it, hit, hfalse⟩ := h
    rcases List.mem_cons.mp hit with rfl | hmem
    · match hexp : it.expression with
      | .aggregate agg => simp [QueryExecutor.isAggregateItem, hexp] at hfalse
      | .comparison c => simp [QueryExecutor.aggregate_items, hexp]
      | .and es => simp [QueryExecutor.aggregate_items, hexp]
      | .or es => simp [QueryExecutor.aggregate_items, hexp]
    · match hexp : item.expression with
      | .aggregate agg =>
        obtain ⟨n, hn⟩ :=
          evaluate_aggregate_ok agg (QueryExecutor.contextsOf bl) g
        have hrest := ih ⟨it, hmem, hfalse⟩
        simp [QueryExecutor.aggregate_items, hexp, hn, hrest, Except.map]
      | .comparison c => simp [QueryExecutor.aggregate_items, hexp]
      | .and es => simp [QueryExecutor.aggregate_items, hexp]
      | .or es => simp [QueryExecutor.aggregate_items, hexp]

/-! ## Claim C1: MATCH (n) RETURN COUNT(n) -/

theorem length_filterMap_some {α β : Type} (l : List α) (f : α → β) :
    (l.filterMap fun a => some (f a)).length = l.length := by
  induction l with
  | nil => rfl
  | cons a l ih => simp [List.filterMap_cons, ih]

theorem matchPatterns_countAll (g : Graph) :
    (QueryExecutor.matchPatterns countAllQuery g).length = g.nodes.length := by
  show (QueryExecutor.match_node_pattern ⟨some "n", []⟩ g
      [([] : Bindings)]).length = g.nodes.length
  simp [QueryExecutor.match_node_pattern, QueryExecutor.labelsMatch,
    lookupKey, length_filterMap_some]

/-- C1: for every graph, `MATCH (n) RETURN COUNT(n)` succeeds with exactly
one column and one row, whose single value is the number of nodes. -/
theorem countAllNodes (g : Graph) :
    ∃ r : QueryResult, QueryExecutor.execute countAllQuery g = .ok r ∧
      r.columns.length = 1 ∧ r.rows.length = 1 ∧
      r.get_single_value = some (.num g.nodes.length) := by
  refine ⟨⟨["COUNT(n)"], [[("COUNT(n)", .num g.nodes.length)]]⟩, ?_, rfl, rfl,
    rfl⟩
  have hlen := matchPatterns_countAll g
  have hfb : QueryExecutor.filteredBindings countAllQuery g =
      QueryExecutor.matchPatterns countAllQuery g := rfl
  rw [execute_agg_path countAllQuery g rfl, hfb]
  simp [QueryExecutor.execute_aggregate_return, QueryExecutor.aggregate_items,
    AggregateEvaluator.evaluate, AggregateEvaluator.count,
    QueryExecutor.contextsOf, QueryExecutor.aggColumnName,
    AggregateEvaluator.column_name, Except.map, objInsert, hlen]

/-! ## Claim C3: mixed aggregate and non-aggregate RETURN -/

/-- C3: a RETURN with at least one aggregate and at least one
non-aggregate item yields the mixed-return execution error (and hence no
rows); an all-aggregate or all-non-aggregate RETURN never produces that
error. -/
theorem mixedAggregateReturn :
    (∀ (q : Query) (g : Graph),
      (∃ it ∈ q.return_clause.items,
        QueryExecutor.isAggregateItem it = true) →
      (∃ it ∈ q.return_clause.items,
        QueryExecutor.isAggregateItem it = false) →
      QueryExecutor.execute q g =
        .error (.executionError "Mixed aggregate and non-aggregate in RETURN"))
    ∧
    (∀ (q : Query) (g : Graph),
      (∀ it ∈ q.return_clause.items,
        QueryExecutor.isAggregateItem it = true) →
      ∃ r, QueryExecutor.execute q g = .ok r) ∧
    (∀ (q : Query) (g : Graph),
      (∀ it ∈ q.return_clause.items,
        QueryExecutor.isAggregateItem it = false) →
      ∃ r, QueryExecutor.execute q g = .ok r) := by
  refine ⟨?_, ?_, ?_⟩
  · intro q g hagg hnon
    have hany : q.return_clause.items.any QueryExecutor.isAggregateItem =
        true := List.any_eq_true.mpr hagg
    have herr := aggregate_items_mixed g (QueryExecutor.filteredBindings q g)
      q.return_clause.items hnon
    rw [execute_agg_path q g hany]
    unfold QueryExecutor.execute_aggregate_return
    rw [herr]
    rfl
  · intro q g hall
    by_cases hany : q.return_clause.items.any QueryExecutor.isAggregateItem
    · obtain ⟨ps, hps, _⟩ := aggregate_items_all_ok g
        (QueryExecutor.filteredBindings q g) q.return_clause.items hall
      exact ⟨_, (execute_agg_path q g hany).trans
        (execute_aggregate_return_ok _ _ _ _ hps)⟩
    · obtain ⟨r, hr⟩ := execute_normal_return_ok q.return_clause
        (QueryExecutor.filteredBindings q g) g
      exact ⟨r, (execute_normal_path q g (by simpa using hany)).trans hr⟩
  · intro q g hall
    have hany : q.return_clause.items.any QueryExecutor.isAggregateItem =
        false := by
      rw [List.any_eq_false]
      intro it hit
      simp [hall it hit]
    obtain ⟨r, hr⟩ := execute_normal_return_ok q.return_clause
      (QueryExecutor.filteredBindings q g) g
    exact ⟨r, (execute_normal_path q g hany).trans hr⟩

/-- Witness for C3: `MATCH (n) RETURN n.id, COUNT(n)` fails with the
mixed-return error. -/
theorem mixedAggregateReturn_witness :
    QueryExecutor.execute mixedReturnQuery ageGraph =
      .error (.executionError "Mixed aggregate and non-aggregate in RETURN")
    :=
  mixedAggregateReturn.1 mixedReturnQuery ageGraph
    ⟨⟨.aggregate ⟨.count, "n", none⟩, none⟩,
      List.mem_cons_of_mem _ (List.mem_cons_self _ _), rfl⟩
    ⟨⟨.comparison ⟨⟨"n", some "id"⟩, none, none⟩, none⟩,
      List.mem_cons_self _ _, rfl⟩

/-! ## Claim C5: SUM semantics -/

theorem foldl_sumStep (agg : AggregateExpression) (g : Graph) :
    ∀ (l : List EvalContext) (s : Int), -(2 ^ 63) ≤ s → s < 2 ^ 63 →
      l.foldl (AggregateEvaluator.sumStep agg g) s =
        wrap64 (s + (l.map (AggregateEvaluator.sumContribution agg g)).sum)
    := by
  intro l
  induction l with
  | nil =>
    intro s h1 h2
    simp [wrap64_eq_self h1 h2]
  | cons c l ih =>
    intro s h1 h2
    rcases hc : AggregateEvaluator.sumContributionOpt agg g c with _ | v
    · have hstep : AggregateEvaluator.sumStep agg g s c = s := by
        simp [AggregateEvaluator.sumStep, hc]
      have hcontrib : AggregateEvaluator.sumContribution agg g c = 0 := by
        simp [AggregateEvaluator.sumContribution, hc]
      simp only [List.foldl_cons, hstep, List.map_cons, List.sum_cons,
        hcontrib]
      rw [ih s h1 h2]
      congr 1
      ring
    · have hstep : AggregateEvaluator.sumStep agg g s c = wrap64 (s + v) := by
        simp [AggregateEvaluator.sumStep, hc]
      have hcontrib : AggregateEvaluator.sumContribution agg g c = v := by
        simp [AggregateEvaluator.sumContribution, hc]
      simp only [List.foldl_cons, hstep, List.map_cons, List.sum_cons,
        hcontrib]
      rw [ih (wrap64 (s + v)) (wrap64_lb _) (wrap64_ub _), wrap64_add_left]
      congr 1
      ring

/-- C5: `SUM(var.prop)` always succeeds and equals the 64-bit (wrapping)
sum of the bound nodes' integer `prop` values, a context whose node lacks
the property (or holds a non-integer) contributing 0; concretely,
`MATCH (n) RETURN SUM(n.age)` over ages 30, 25, 35 yields 90. -/
theorem sumSemantics :
    (∀ (agg : AggregateExpression) (g : Graph)
      (contexts : List EvalContext) (prop : String),
      agg.property = some prop →
      AggregateEvaluator.sum agg contexts g =
        .ok (.num (wrap64 ((contexts.map fun ctx =>
          match ctx.get_binding agg.var with
          | some idx =>
            ((g.nodes.getD idx defaultNode).get_property_as_i64 prop).getD 0
          | none => 0)).sum))) ∧
    QueryExecutor.execute sumAgeQuery ageGraph =
      .ok ⟨["SUM(n.age)"], [[("SUM(n.age)", .num 90)]]⟩ := by
  constructor
  · intro agg g contexts prop hp
    unfold AggregateEvaluator.sum
    rw [foldl_sumStep agg g contexts 0 (by norm_num) (by norm_num)]
    have hc : ∀ ctx ∈ contexts, AggregateEvaluator.sumContribution agg g ctx =
        (match ctx.get_binding agg.var with
         | some idx =>
           ((g.nodes.getD idx defaultNode).get_property_as_i64 prop).getD 0
         | none => 0) := by
      intro ctx _
      rcases hb : ctx.get_binding agg.var with _ | idx <;>
        simp [AggregateEvaluator.sumContribution,
          AggregateEvaluator.sumContributionOpt, hb, hp]
    rw [List.map_congr_left hc, zero_add]
  · rfl

/-- Witness for C5: SUM over the three `ageGraph` contexts. -/
theorem sumSemantics_witness :
    AggregateEvaluator.sum ⟨.sum, "n", some "age"⟩
        [⟨[("n", 0)]⟩, ⟨[("n", 1)]⟩, ⟨[("n", 2)]⟩] ageGraph =
      .ok (.num 90) :=
  sumSemantics.1 ⟨.sum, "n", some "age"⟩ ageGraph
    [⟨[("n", 0)]⟩, ⟨[("n", 1)]⟩, ⟨[("n", 2)]⟩] "age" rfl

/-! ## Claim C6: all-aggregate RETURN produces exactly one row -/

/-- C6: an all-aggregate RETURN produces exactly one row with one column
per item, whatever the surviving bindings; over an empty bindings list
every aggregate value is 0 (COUNT = 0, SUM = 0), not an error — concretely
`MATCH (n:ghost) RETURN COUNT(n), SUM(n.age)` yields one zero-valued row. -/
theorem allAggregateSingleRow :
    (∀ (q : Query) (g : Graph),
      q.return_clause.items ≠ [] →
      (∀ it ∈ q.return_clause.items,
        QueryExecutor.isAggregateItem it = true) →
      ∃ r, QueryExecutor.execute q g = .ok r ∧
        r.rows.length = 1 ∧
        r.columns.length = q.return_clause.items.length) ∧
    (∀ (agg : AggregateExpression) (g : Graph),
      AggregateEvaluator.evaluate agg (QueryExecutor.contextsOf []) g =
        .ok (.num 0)) ∧
    QueryExecutor.execute unmatchedAggQuery ageGraph =
      .ok ⟨["COUNT(n)", "SUM(n.age)"],
        [[("COUNT(n)", .num 0), ("SUM(n.age)", .num 0)]]⟩ := by
  refine ⟨?_, ?_, ?_⟩
  · intro q g hne hall
    have hany : q.return_clause.items.any QueryExecutor.isAggregateItem =
        true := by
      obtain ⟨it, rest, hL⟩ : ∃ it rest, q.return_clause.items = it :: rest
          := by
        cases hq : q.return_clause.items with
        | nil => exact absurd hq hne
        | cons a b => exact ⟨a, b, rfl⟩
      have hm : it ∈ q.return_clause.items := by
        rw [hL]; exact List.mem_cons_self _ _
      exact List.any_eq_true.mpr ⟨it, hm, hall it hm⟩
    obtain ⟨ps, hps, hmap⟩ := aggregate_items_all_ok g
      (QueryExecutor.filteredBindings q g) q.return_clause.items hall
    refine ⟨_, (execute_agg_path q g hany).trans
      (execute_aggregate_return_ok _ _ _ _ hps), rfl, ?_⟩
    simpa using congrArg List.length hmap
  · intro agg g
    cases hf : agg.func <;>
      simp [AggregateEvaluator.evaluate, hf, AggregateEvaluator.count,
        AggregateEvaluator.sum, QueryExecutor.contextsOf]
  · rfl

/-- Witness for C6 at the unmatched all-aggregate query. -/
theorem allAggregateSingleRow_witness :
    ∃ r, QueryExecutor.execute unmatchedAggQuery ageGraph = .ok r ∧
      r.rows.length = 1 ∧
      r.columns.length = unmatchedAggQuery.return_clause.items.length :=
  allAggregateSingleRow.1 unmatchedAggQuery ageGraph
    (by simp [unmatchedAggQuery]) (by decide)

/-! ## Claim C9: relationship variables are omitted from contexts -/

theorem contextOf_fold_none (v : String) :
    ∀ (b : Bindings) (acc : EvalContext),
      (∀ i, (v, EntityId.node i) ∉ b) →
      acc.get_binding v = none →
      (b.foldl (fun ctx p =>
        match p.2 with
        | .node idx => ctx.bind p.1 idx
        | .relationship .. => ctx) acc).get_binding v = none := by
  intro b
  induction b with
  | nil => intro acc _ hacc; exact hacc
  | cons p rest ih =>
    intro acc h hacc
    obtain ⟨k, e⟩ := p
    have hrest : ∀ i, (v, EntityId.node i) ∉ rest := fun i hi =>
      h i (List.mem_cons_of_mem _ hi)
    cases e with
    | node idx =>
      have hk : k ≠ v := by
        intro hkv
        exact h idx (by rw [← hkv]; exact List.mem_cons_self _ _)
      simp only [List.foldl_cons]
      refine ih (acc.bind k idx) hrest ?_
      show lookupKey (upsert k idx acc.bindings) v = none
      rw [lookupKey_upsert_ne v k idx acc.bindings fun h' => hk h'.symm]
      exact hacc
    | relationship f t rel =>
      simp only [List.foldl_cons]
      exact ih acc hrest hacc

theorem contextOf_not_node (b : Bindings) (v : String)
    (h : ∀ i, (v, EntityId.node i) ∉ b) :
    (QueryExecutor.contextOf b).get_binding v = none :=
  contextOf_fold_none v b EvalContext.new h rfl

theorem sum_foldl_unbound (agg : AggregateExpression) (g : Graph) :
    ∀ (bl : List Bindings) (s : Int),
      (∀ b ∈ bl, ∀ i, (agg.var, EntityId.node i) ∉ b) →
      (bl.map QueryExecutor.contextOf).foldl
        (AggregateEvaluator.sumStep agg g) s = s := by
  intro bl
  induction bl with
  | nil => intro s _; rfl
  | cons b rest ih =>
    intro s h
    have hb := contextOf_not_node b agg.var (h b (List.mem_cons_self _ _))
    have hstep :
        AggregateEvaluator.sumStep agg g s (QueryExecutor.contextOf b) = s
        := by
      simp [AggregateEvaluator.sumStep, AggregateEvaluator.sumContributionOpt,
        hb]
    simp only [List.map_cons, List.foldl_cons, hstep]
    exact ih s fun b' hb' => h b' (List.mem_cons_of_mem _ hb')

/-- C9: building the aggregation contexts transfers only node bindings —
a variable never bound to a node is absent from every context — so
`SUM(r.prop)` over relationship-only bindings is 0 while `COUNT(r)` still
equals the number of surviving bindings. -/
theorem relationshipVarsOmitted :
    (∀ (b : Bindings) (v : String),
      (∀ i, (v, EntityId.node i) ∉ b) →
      (QueryExecutor.contextOf b).get_binding v = none) ∧
    (∀ (agg : AggregateExpression) (g : Graph) (bl : List Bindings),
      (∀ b ∈ bl, ∀ i, (agg.var, EntityId.node i) ∉ b) →
      AggregateEvaluator.sum agg (QueryExecutor.contextsOf bl) g =
        .ok (.num 0)) ∧
    (∀ (bl : List Bindings) (g : Graph) (agg : AggregateExpression),
      agg.func = .count →
      AggregateEvaluator.evaluate agg (QueryExecutor.contextsOf bl) g =
        .ok (.num bl.length)) := by
  refine ⟨contextOf_not_node, ?_, ?_⟩
  · intro agg g bl h
    unfold AggregateEvaluator.sum
    rw [show QueryExecutor.contextsOf bl = bl.map QueryExecutor.contextOf
      from rfl]
    rw [sum_foldl_unbound agg g bl 0 h]
  · intro bl g agg hf
    simp [AggregateEvaluator.evaluate, hf, AggregateEvaluator.count,
      QueryExecutor.contextsOf]

/-- Witness for C9 over two bindings that bind `r` to relationships. -/
theorem relationshipVarsOmitted_witness :
    AggregateEvaluator.sum ⟨.sum, "r", some "weight"⟩
        (QueryExecutor.contextsOf
          [[("r", .relationship 0 1 "knows")],
            [("r", .relationship 1 2 "knows")]]) twoNodeGraph =
      .ok (.num 0) ∧
    AggregateEvaluator.evaluate ⟨.count, "r", none⟩
        (QueryExecutor.contextsOf
          [[("r", .relationship 0 1 "knows")],
            [("r", .relationship 1 2 "knows")]]) twoNodeGraph =
      .ok (.num 2) :=
  ⟨relationshipVarsOmitted.2.1 ⟨.sum, "r", some "weight"⟩ twoNodeGraph
      [[("r", .relationship 0 1 "knows")],
        [("r", .relationship 1 2 "knows")]]
      (by
        intro b hb i hmem
        simp only [List.mem_cons, List.not_mem_nil, or_false] at hb
        rcases hb with rfl | rfl <;> simp at hmem),
    relationshipVarsOmitted.2.2
      [[("r", .relationship 0 1 "knows")],
        [("r", .relationship 1 2 "knows")]] twoNodeGraph
      ⟨.count, "r", none⟩ rfl⟩

/-! ## Claim C4: WHERE comparisons are string comparisons -/

theorem QueryExecutor.charsLt_iff :
    ∀ (l₁ l₂ : List Char), QueryExecutor.charsLt l₁ l₂ = true ↔ l₁ < l₂ := by
  intro l₁
  induction l₁ with
  | nil =>
    intro l₂
    cases l₂ with
    | nil =>
      exact iff_of_false (by simp [QueryExecutor.charsLt]) fun h => nomatch h
    | cons b bs => exact ⟨fun _ => List.Lex.nil, fun _ => rfl⟩
  | cons a as ih =>
    intro l₂
    cases l₂ with
    | nil =>
      exact iff_of_false (by simp [QueryExecutor.charsLt]) fun h => nomatch h
    | cons b bs =>
      simp only [QueryExecutor.charsLt]
      by_cases hab : a.toNat < b.toNat
      · simp only [if_pos hab]
        exact iff_of_true (by trivial) (List.Lex.rel hab)
      · by_cases hba : b.toNat < a.toNat
        · simp only [if_neg hab, if_pos hba]
          refine iff_of_false (by simp) fun h => ?_
          cases h with
          | rel h' => exact hab h'
          | cons h' => exact Nat.lt_irrefl _ hba
        · have heq : a = b := Char.eq_of_val_eq (UInt32.toNat.inj
            (Nat.le_antisymm (Nat.not_lt.mp hba) (Nat.not_lt.mp hab)))
          subst heq
          simp only [if_neg hab, if_neg hba]
          constructor
          · intro h
            exact List.Lex.cons ((ih bs).mp h)
          · intro h
            cases h with
            | rel h' => exact absurd h' hab
            | cons h' => exact (ih bs).mpr h'

theorem QueryExecutor.strLt_iff (s t : String) : QueryExecutor.strLt s t = true ↔ s < t := by
  rw [String.lt_iff_toList_lt]
  exact QueryExecutor.charsLt_iff s.data t.data

theorem QueryExecutor.strLe_iff (s t : String) : QueryExecutor.strLe s t = true ↔ s ≤ t := by
  have h := QueryExecutor.strLt_iff t s
  constructor
  · intro hle
    refine not_lt.mp fun hlt => ?_
    rw [show QueryExecutor.strLe s t = !QueryExecutor.strLt t s from rfl, h.mpr hlt] at hle
    simp at hle
  · intro hle
    have hf : QueryExecutor.strLt t s = false := by
      cases hst : QueryExecutor.strLt t s
      · rfl
      · exact absurd (h.mp hst) (not_lt.mpr hle)
    simp [QueryExecutor.strLe, hf]

theorem QueryExecutor.charsPrefix_iff : ∀ (p l : List Char), QueryExecutor.charsPrefix p l = true ↔ p <+: l := by
  intro p
  induction p with
  | nil => intro l; exact iff_of_true rfl (List.nil_prefix)
  | cons a as ih =>
    intro l
    cases l with
    | nil =>
      exact iff_of_false (by simp [QueryExecutor.charsPrefix]) (by simp [List.prefix_nil])
    | cons b bs =>
      simp only [QueryExecutor.charsPrefix, Bool.and_eq_true, beq_iff_eq,
        List.cons_prefix_cons]
      exact and_congr Iff.rfl (ih bs)

theorem QueryExecutor.charsContains_iff :
    ∀ (l sub : List Char), QueryExecutor.charsContains sub l = true ↔ sub <:+: l := by
  intro l
  induction l with
  | nil =>
    intro sub
    rw [show QueryExecutor.charsContains sub [] = QueryExecutor.charsPrefix sub [] from rfl,
      QueryExecutor.charsPrefix_iff, List.infix_nil, List.prefix_nil]
  | cons c rest ih =>
    intro sub
    rw [show QueryExecutor.charsContains sub (c :: rest) =
        (QueryExecutor.charsPrefix sub (c :: rest) || QueryExecutor.charsContains sub rest) from rfl,
      Bool.or_eq_true, QueryExecutor.charsPrefix_iff, ih, List.infix_cons_iff]

/-- C4 counterexample: over property values `"10"` and `"2"`,
`MATCH (n) WHERE n.value > "9" RETURN n.value` returns **no** rows — the
node with value `"2"` is also excluded (`"2" < "9"` lexicographically),
contradicting the claim that it is kept. -/
theorem stringComparison_counterexample :
    QueryExecutor.execute strCmpQuery strCmpGraph =
      .ok ⟨["n.value"], []⟩ ∧
    QueryExecutor.evaluate_expression
        (.comparison ⟨⟨"n", some "value"⟩, some .gt,
          some (.literal (.str "9"))⟩)
        [("n", .node 1)] strCmpGraph = false ∧
    QueryExecutor.evaluate_property_or_variable ⟨"n", some "value"⟩
      [("n", .node 1)] strCmpGraph = "2" :=
  ⟨rfl, rfl, rfl⟩

/-- C4 amended: operator comparisons coerce both sides to strings —
`=`/`<>` are string (in)equality, `<`,`>`,`<=`,`>=` are lexicographic
string order, CONTAINS is a substring test — and consequently
`WHERE n.value > "9"` over values `"10"` and `"2"` excludes **both**
nodes (`"10" < "9"` and `"2" < "9"` lexicographically). -/
theorem stringComparisonSemantics :
    (∀ (comp : Comparison) (b : Bindings) (g : Graph) (t : Term),
      comp.right = some t →
      (comp.operator = some .eq →
        (QueryExecutor.evaluate_expression (.comparison comp) b g = true ↔
          QueryExecutor.evaluate_property_or_variable comp.left b g =
            QueryExecutor.termValue t b g)) ∧
      (comp.operator = some .notEq →
        (QueryExecutor.evaluate_expression (.comparison comp) b g = true ↔
          ¬ QueryExecutor.evaluate_property_or_variable comp.left b g =
            QueryExecutor.termValue t b g)) ∧
      (comp.operator = some .lt →
        (QueryExecutor.evaluate_expression (.comparison comp) b g = true ↔
          QueryExecutor.evaluate_property_or_variable comp.left b g <
            QueryExecutor.termValue t b g)) ∧
      (comp.operator = some .gt →
        (QueryExecutor.evaluate_expression (.comparison comp) b g = true ↔
          QueryExecutor.termValue t b g <
            QueryExecutor.evaluate_property_or_variable comp.left b g)) ∧
      (comp.operator = some .ltEq →
        (QueryExecutor.evaluate_expression (.comparison comp) b g = true ↔
          QueryExecutor.evaluate_property_or_variable comp.left b g ≤
            QueryExecutor.termValue t b g)) ∧
      (comp.operator = some .gtEq →
        (QueryExecutor.evaluate_expression (.comparison comp) b g = true ↔
          QueryExecutor.termValue t b g ≤
            QueryExecutor.evaluate_property_or_variable comp.left b g)) ∧
      (comp.operator = some .contains →
        (QueryExecutor.evaluate_expression (.comparison comp) b g = true ↔
          (QueryExecutor.termValue t b g).toList <:+:
            (QueryExecutor.evaluate_property_or_variable comp.left b g).toList)))
    ∧
    QueryExecutor.execute strCmpQuery strCmpGraph = .ok ⟨["n.value"], []⟩
    := by
  constructor
  · intro comp b g t hr
    refine ⟨?_, ?_, ?_, ?_, ?_, ?_, ?_⟩ <;> intro hop <;>
      simp only [QueryExecutor.evaluate_expression,
        QueryExecutor.evalComparison, hr, hop]
    · exact beq_iff_eq
    · exact bne_iff_ne
    · exact QueryExecutor.strLt_iff _ _
    · exact QueryExecutor.strLt_iff _ _
    · exact QueryExecutor.strLe_iff _ _
    · exact QueryExecutor.strLe_iff _ _
    · exact QueryExecutor.charsContains_iff _ _
  · rfl

/-- Witness for C4 (amended): the `>` case at concrete strings. -/
theorem stringComparisonSemantics_witness :
    QueryExecutor.evaluate_expression
        (.comparison ⟨⟨"n", some "value"⟩, some .gt,
          some (.literal (.str "9"))⟩)
        [("n", .node 0)] strCmpGraph = true ↔
      ("9" : String) < "10" :=
  ((stringComparisonSemantics.1
      ⟨⟨"n", some "value"⟩, some .gt, some (.literal (.str "9"))⟩
      [("n", .node 0)] strCmpGraph (.literal (.str "9")) rfl).2.2.2.1 rfl)

/-! ## Claim C2: equi-join on revisited variables -/

theorem mem_match_node_pattern (np : NodePattern) (g : Graph)
    (bl : List Bindings) (b' : Bindings) :
    b' ∈ QueryExecutor.match_node_pattern np g bl ↔
      ∃ b ∈ bl, ∃ i node, g.nodes[i]? = some node ∧
        QueryExecutor.labelsMatch np.labels node = true ∧
        ((np.var = none ∧ b' = b) ∨
          ∃ v, np.var = some v ∧
            ((lookupKey b v = none ∧ b' = upsert v (.node i) b) ∨
              (lookupKey b v = some (.node i) ∧ b' = b))) := by
  unfold QueryExecutor.match_node_pattern
  rw [List.mem_flatMap]
  constructor
  · rintro ⟨b, hb, hmem⟩
    rw [List.mem_filterMap] at hmem
    obtain ⟨⟨i, node⟩, hin, heq⟩ := hmem
    rw [List.mk_mem_enum_iff_getElem?] at hin
    refine ⟨b, hb, i, node, hin, ?_⟩
    by_cases hl : QueryExecutor.labelsMatch np.labels node = true
    · refine ⟨hl, ?_⟩
      rw [if_pos hl] at heq
      rcases hv : np.var with _ | v
      · simp only [hv] at heq
        exact Or.inl ⟨rfl, (Option.some.inj heq).symm⟩
      · simp only [hv] at heq
        refine Or.inr ⟨v, rfl, ?_⟩
        rcases hlk : lookupKey b v with _ | e
        · simp only [hlk] at heq
          exact Or.inl ⟨rfl, (Option.some.inj heq).symm⟩
        · simp only [hlk] at heq
          cases e with
          | node prev =>
            dsimp only at heq
            by_cases hpi : prev = i
            · rw [if_pos hpi] at heq
              refine Or.inr ⟨?_, (Option.some.inj heq).symm⟩
              rw [hpi]
            · rw [if_neg hpi] at heq
              exact absurd heq (by simp)
          | relationship f t rel =>
            dsimp only at heq
            exact absurd heq (by simp)
    · rw [if_neg hl] at heq
      exact absurd heq (by simp)
  · rintro ⟨b, hb, i, node, hin, hl, hcase⟩
    refine ⟨b, hb, ?_⟩
    rw [List.mem_filterMap]
    refine ⟨(i, node), List.mk_mem_enum_iff_getElem?.mpr hin, ?_⟩
    rcases hcase with ⟨hv, rfl⟩ | ⟨v, hv, hsub⟩
    · simp [hv, hl]
    · rcases hsub with ⟨hlk, rfl⟩ | ⟨hlk, rfl⟩
      · simp [hv, hl, hlk]
      · simp [hv, hl, hlk]

theorem mem_match_relationship_pattern (sv : String)
    (rp : RelationshipPattern) (np : NodePattern) (g : Graph)
    (bl : List Bindings) (b' : Bindings) :
    b' ∈ QueryExecutor.match_relationship_pattern sv rp np g bl ↔
      ∃ b ∈ bl, ∃ s, lookupKey b sv = some (.node s) ∧
        ∃ pr ∈ QueryExecutor.neighborsFor g rp.direction s,
          QueryExecutor.relTypeMatches rp.rel_type pr.2 = true ∧
          QueryExecutor.labelsMatch np.labels
            (g.nodes.getD pr.1 defaultNode) = true ∧
          ((np.var = none ∧ b' = QueryExecutor.relVarBind rp b s pr) ∨
            ∃ v, np.var = some v ∧
              ((lookupKey b v = some (.node pr.1) ∧
                  b' = QueryExecutor.relVarBind rp b s pr) ∨
                ((∀ j, lookupKey b v ≠ some (.node j)) ∧
                  b' = upsert v (.node pr.1)
                    (QueryExecutor.relVarBind rp b s pr)))) := by
  unfold QueryExecutor.match_relationship_pattern
  rw [List.mem_flatMap]
  constructor
  · rintro ⟨b, hb, hmem⟩
    rcases hsv : lookupKey b sv with _ | e
    · rw [hsv] at hmem
      simp at hmem
    · cases e with
      | relationship f t rel =>
        rw [hsv] at hmem
        simp at hmem
      | node s =>
        rw [hsv] at hmem
        rw [List.mem_filterMap] at hmem
        obtain ⟨pr, hin, heq⟩ := hmem
        refine ⟨b, hb, s, hsv, pr, hin, ?_⟩
        by_cases hrt : QueryExecutor.relTypeMatches rp.rel_type pr.2 = true
        · rw [if_pos hrt] at heq
          by_cases hlm : QueryExecutor.labelsMatch np.labels
              (g.nodes.getD pr.1 defaultNode) = true
          · rw [if_pos hlm] at heq
            refine ⟨hrt, hlm, ?_⟩
            rcases hv : np.var with _ | v
            · simp only [hv] at heq
              exact Or.inl ⟨rfl, (Option.some.inj heq).symm⟩
            · simp only [hv] at heq
              refine Or.inr ⟨v, rfl, ?_⟩
              rcases hlk : lookupKey b v with _ | e'
              · simp only [hlk] at heq
                refine Or.inr ⟨fun j h => Option.noConfusion h, ?_⟩
                exact (Option.some.inj heq).symm
              · simp only [hlk] at heq
                cases e' with
                | node prev =>
                  dsimp only at heq
                  by_cases hpi : prev = pr.1
                  · rw [if_pos hpi] at heq
                    refine Or.inl ⟨?_, (Option.some.inj heq).symm⟩
                    rw [hpi]
                  · rw [if_neg hpi] at heq
                    exact absurd heq (by simp)
                | relationship f t rel =>
                  dsimp only at heq
                  refine Or.inr ⟨fun j h =>
                    EntityId.noConfusion (Option.some.inj h), ?_⟩
                  exact (Option.some.inj heq).symm
          · rw [if_neg hlm] at heq
            exact absurd heq (by simp)
        · rw [if_neg hrt] at heq
          exact absurd heq (by simp)
  · rintro ⟨b, hb, s, hsv, pr, hin, hrt, hlm, hcase⟩
    refine ⟨b, hb, ?_⟩
    simp only [hsv]
    rw [List.mem_filterMap]
    refine ⟨pr, hin, ?_⟩
    rw [if_pos hrt, if_pos hlm]
    rcases hcase with ⟨hv, rfl⟩ | ⟨v, hv, hsub⟩
    · simp [hv]
    · rcases hsub with ⟨hlk, rfl⟩ | ⟨hnode, rfl⟩
      · simp [hv, hlk]
      · rcases hlk : lookupKey b v with _ | e'
        · simp [hv, hlk]
        · cases e' with
          | node prev => exact absurd hlk (hnode prev)
          | relationship f t rel => simp [hv, hlk]

/-- C2 counterexample: in `MATCH (a)-[x]->(b)-[y]->(x)` over the chain
`0→1→2`, the end-node pattern `(x)` revisits `x`, which is bound to a
relationship — per the claim the candidate must be dropped (it cannot
resolve to the same node index), yet the matcher keeps it, silently
overwriting `x` with end node 2. -/
theorem equiJoinOnRevisit_counterexample :
    QueryExecutor.matchPatterns relRevisitQuery chainGraph =
      [[("x", .node 2), ("y", .relationship 1 2 "k"),
        ("b", .node 1), ("a", .node 0)]] ∧
    ([[("x", EntityId.node 2), ("y", .relationship 1 2 "k"),
        ("b", .node 1), ("a", .node 0)]] : List Bindings) ≠ [] ∧
    lookupKey [("x", EntityId.node 2), ("y", .relationship 1 2 "k"),
        ("b", .node 1), ("a", .node 0)] "x" = some (.node 2) :=
  ⟨rfl, by simp, rfl⟩

/-- C2 amended: the matcher enforces the equi-join on revisit except in
one case.  A node pattern keeps a revisited variable only when it is
bound to the same node index (bound to a different node or to a
relationship drops the candidate).  A relationship end-node pattern keeps
a node-bound revisited variable only at the same node index, but a
revisited variable that is NOT node-bound is overwritten with the end
node and the candidate is kept.  The join-coherence example
`MATCH (a)-[]->(b), (b)-[]->(a)` behaves as claimed. -/
theorem equiJoinOnRevisit :
    (∀ (np : NodePattern) (g : Graph) (bl : List Bindings) (b' : Bindings),
      b' ∈ QueryExecutor.match_node_pattern np g bl ↔
        ∃ b ∈ bl, ∃ i node, g.nodes[i]? = some node ∧
          QueryExecutor.labelsMatch np.labels node = true ∧
          ((np.var = none ∧ b' = b) ∨
            ∃ v, np.var = some v ∧
              ((lookupKey b v = none ∧ b' = upsert v (.node i) b) ∨
                (lookupKey b v = some (.node i) ∧ b' = b)))) ∧
    (∀ (sv : String) (rp : RelationshipPattern) (np : NodePattern)
      (g : Graph) (bl : List Bindings) (b' : Bindings),
      b' ∈ QueryExecutor.match_relationship_pattern sv rp np g bl ↔
        ∃ b ∈ bl, ∃ s, lookupKey b sv = some (.node s) ∧
          ∃ pr ∈ QueryExecutor.neighborsFor g rp.direction s,
            QueryExecutor.relTypeMatches rp.rel_type pr.2 = true ∧
            QueryExecutor.labelsMatch np.labels
              (g.nodes.getD pr.1 defaultNode) = true ∧
            ((np.var = none ∧ b' = QueryExecutor.relVarBind rp b s pr) ∨
              ∃ v, np.var = some v ∧
                ((lookupKey b v = some (.node pr.1) ∧
                    b' = QueryExecutor.relVarBind rp b s pr) ∨
                  ((∀ j, lookupKey b v ≠ some (.node j)) ∧
                    b' = upsert v (.node pr.1)
                      (QueryExecutor.relVarBind rp b s pr))))) ∧
    QueryExecutor.matchPatterns joinQuery joinGraph =
      [[("b", .node 1), ("a", .node 0)], [("b", .node 0), ("a", .node 1)]]
    :=
  ⟨mem_match_node_pattern, mem_match_relationship_pattern, rfl⟩

end CypherRS
